import Mathlib

/-!
Verification development for the ChatAgent ingestion pipeline.

The definitions below are a shallow embedding of the Python sources:

* `src/utils/extract_text.py` — the chunker (`chunk_text`);
* `src/folder_processor.py` — the status store (`load_status`,
  `update_file_status`), the queue scanner (`get_pending_files`,
  `allowed_file`) and the file processor (`process_file`).

External collaborators (the tiktoken tokenizer, the OpenAI embedding
client, the Pinecone index, the filesystem clock) are modelled as
explicit parameters or environment records, so every definition is a
computable Lean function.  File I/O of the status document is modelled
by threading the decoded mapping through the functions: every
`update_file_status` in the source performs a full load / mutate / save
cycle on `processing_status.json`, which for a single writer is exactly
state threading.  Python `datetime.now().isoformat()` readings are
abstracted to a supplied timestamp string, and the float expression
`int((i / total) * 50)` in progress updates is modelled by natural
floor division `(i * 50) / total`.
-/

namespace ChatAgent

/-! ## Chunker (`src/utils/extract_text.py`, `chunk_text`)

`tiktoken.encoding_for_model("gpt-4")` yields an encoder object with
`encode : str → list token` and `decode : list token → str`; either may
raise.  We model a token as a `Nat` and a raising call as
`Except String`. -/

/-- Abstract tokenizer: `encode`/`decode` as in tiktoken, where a raised
exception is modelled by `Except.error`. -/
structure Tokenizer where
  encode : String → Except String (List Nat)
  decode : List Nat → Except String String

/-- Fuel-driven worker for `windows`; the fuel only bounds the
recursion depth (structural recursion keeps the definition
kernel-reducible) and `l.length` steps always suffice for `k > 0`. -/
def windowsAux (k : Nat) : Nat → List α → List (List α)
  | _, [] => []
  | 0, _ :: _ => []
  | fuel + 1, a :: rest => (a :: rest).take k :: windowsAux k fuel ((a :: rest).drop k)

/-- Consecutive non-overlapping windows of size `k`, the last possibly
shorter: the Python pattern `[l[i:i+k] for i in range(0, len(l), k)]`
(for `k > 0`). -/
def windows (l : List α) (k : Nat) : List (List α) :=
  windowsAux k l.length l

/-- Decode each token window in order, aborting on the first decoder
exception — the body of the `for` loop in `chunk_text`, whose partial
results are discarded when an exception propagates. -/
def decodeAll (dec : List Nat → Except String String) : List (List Nat) → Except String (List String)
  | [] => .ok []
  | w :: ws => do
      let s ← dec w
      let rest ← decodeAll dec ws
      pure (s :: rest)

/-- The `try` body of `chunk_text`: tokenize, return `[text]` when the
token count is at most `max_tokens`, otherwise decode each window of
`max_tokens` tokens.  `max_tokens = 0` makes Python's
`range(0, len(tokens), 0)` raise `ValueError`, modelled by `.error`. -/
def tokenizeChunks (enc : Tokenizer) (text : String) (max_tokens : Nat) : Except String (List String) := do
  let tokens ← enc.encode text
  if tokens.length ≤ max_tokens then
    pure [text]
  else if max_tokens = 0 then
    .error "range() arg 3 must not be zero"
  else
    decodeAll enc.decode (windows tokens max_tokens)

/-- The `except` fallback of `chunk_text`:
`[text[i:i + 2000] for i in range(0, len(text), 2000)]`, character-based
slicing (Python indexes by code point, modelled by `List Char`). -/
def charFallback (text : String) : List String :=
  (windows text.toList 2000).map (fun cs => String.mk cs)

/-- `chunk_text(text, max_tokens=500)` from `src/utils/extract_text.py`:
token-window chunking, falling back to fixed 2000-character slicing
when tokenization raises. -/
def chunk_text (enc : Tokenizer) (text : String) (max_tokens : Nat := 500) : List String :=
  match tokenizeChunks enc text max_tokens with
  | .ok chunks => chunks
  | .error _ => charFallback text

/-! ## Status store (`src/folder_processor.py`)

A status document is a JSON object keyed by filename; each value is the
per-file task record written by `update_file_status`.  We model the
well-typed records the processor itself writes.  The `messages` and
`errors` fields are `Option` lists: `none` models a JSON value where
the key is absent or holds a non-list, which carries no log entries —
exactly the case `update_file_status` resets to `[]`.  A log entry is a
`(time, text)` pair. -/

/-- One file's task record in `processing_status.json`. -/
structure FileTask where
  start_time : String
  status : String
  progress : Int
  last_updated : Option String
  messages : Option (List (String × String))
  errors : Option (List (String × String))
  chunks : Nat
deriving Repr, DecidableEq

/-- The decoded status document: an insertion-ordered mapping from
filename to task record, as a Python `dict`. -/
def Status := List (String × FileTask)

instance : DecidableEq Status := inferInstanceAs (DecidableEq (List (String × FileTask)))

/-- Python `status[f]` lookup (`f in status` is `lookup ≠ none`). -/
def lookup : Status → String → Option FileTask
  | [], _ => none
  | (k, v) :: rest, f => if k = f then some v else lookup rest f

/-- Python `status[f] = e`: replace the value at an existing key in
place, otherwise append the new key (dict insertion order). -/
def setEntry : Status → String → FileTask → Status
  | [], f, e => [(f, e)]
  | (k, v) :: rest, f, e => if k = f then (k, e) :: rest else (k, v) :: setEntry rest f e

/-- The record `update_file_status` produces for `filename` before the
optional message/error appends: a fresh entry when the filename is
absent (or its value is not a dict), otherwise the existing entry with
`status`, `progress` and `last_updated` overwritten. -/
def baseEntry (now : String) (st : Status) (filename current_status : String) (progress : Int) : FileTask :=
  match lookup st filename with
  | none =>
      { start_time := now, status := current_status, progress := progress,
        last_updated := none, messages := some [], errors := some [], chunks := 0 }
  | some e =>
      { e with status := current_status, progress := progress, last_updated := some now }

/-- `update_file_status(filename, current_status, progress, message, error)`
from `src/folder_processor.py` (lines 120-173), with the load/save
cycle modelled by the threaded `st`.  `message`/`error` are appended
only when truthy (non-empty). -/
def update_file_status (now : String) (st : Status) (filename current_status : String)
    (progress : Int) (message : String := "") (error : Option String := none) : Status :=
  let e := baseEntry now st filename current_status progress
  let msgs := e.messages.getD []
  let errs := e.errors.getD []
  let msgs := if message = "" then msgs else msgs ++ [(now, message)]
  let errs := match error with
    | none => errs
    | some s => if s = "" then errs else errs ++ [(now, s)]
  setEntry st filename { e with messages := some msgs, errors := some errs }

/-! ### `load_status` (lines 85-108)

The filesystem around `processing_status.json` is modelled by an
explicit record: the file's content (or `none` when it does not exist)
and the list of backup files created.  `json.load` is the external JSON
parser, a parameter returning `none` on parse failure. -/

/-- Filesystem state visible to `load_status`: the status file's
content, and the `(name, content)` backup copies made so far. -/
structure StatusFS where
  statusFile : Option String
  backups : List (String × String)
deriving Repr, DecidableEq

/-- `load_status()` from `src/folder_processor.py`: parse the status
file; on parse failure, back the non-empty corrupt file up under a
timestamped name, rewrite the file as the empty JSON object, and
return the empty mapping.  `epoch` models `int(time.time())`. -/
def load_status (parseJson : String → Option Status) (epoch : Nat) (fs : StatusFS) : Status × StatusFS :=
  match fs.statusFile with
  | none => ([], fs)
  | some content =>
      match parseJson content with
      | some st => (st, fs)
      | none =>
          let fs := if content.length > 0 then
              { fs with backups := ("processing_status.json.bak." ++ toString epoch, content) :: fs.backups }
            else fs
          ([], { fs with statusFile := some "\x7b\x7d" })

/-! ## Queue scanner (`get_pending_files`, lines 194-233) -/

/-- The `ALLOWED_EXTENSIONS` configuration set. -/
def ALLOWED_EXTENSIONS : List String := ["pdf", "epub", "txt", "mobi", "azw", "azw3"]

/-- Extension of a filename: the characters after the last dot, the
Python `filename.rsplit('.', 1)[1]` (meaningful only when a dot is
present, exactly as in `allowed_file`). -/
def extensionOf (filename : String) : List Char :=
  (filename.toList.reverse.takeWhile (fun c => c ≠ '.')).reverse

/-- `allowed_file(filename)`:
`'.' in filename and filename.rsplit('.', 1)[1].lower() in ALLOWED_EXTENSIONS`,
modelled at character level (Python strings index by code point). -/
def allowed_file (filename : String) : Bool :=
  filename.toList.contains '.' &&
    ALLOWED_EXTENSIONS.contains (String.mk ((extensionOf filename).map Char.toLower))

/-- Eligibility of one intake file given its status entry: no entry,
or status `error`/`pending`, or status `processing` whose truthy
`last_updated` is either unparseable (`fromisoformat` raised) or more
than 1800 seconds old.  `parse` models `datetime.fromisoformat`
composed with conversion to epoch seconds; `now` the current time. -/
def eligible (st : Status) (parse : String → Option Int) (now : Int) (f : String) : Bool :=
  match lookup st f with
  | none => true
  | some e =>
      if e.status = "error" ∨ e.status = "pending" then true
      else if e.status = "processing" then
        match e.last_updated with
        | none => false
        | some s =>
            if s = "" then false
            else match parse s with
              | some t => decide (now - t > 1800)
              | none => true
      else false

/-- `get_pending_files()` from `src/folder_processor.py`: the intake
directory listing filtered to regular files with allowed extensions,
then filtered by per-file eligibility against the status store. -/
def get_pending_files (isfile : String → Bool) (listing : List String) (st : Status)
    (parse : String → Option Int) (now : Int) : List String :=
  ((listing.filter fun f => isfile f && allowed_file f).filter (eligible st parse now))

/-! ## File processor (`process_file`, lines 236-580)

All external effects are gathered in an environment record: API-key
availability, the extraction result, the metadata generator outcome,
the tokenizer used by `chunk_text`, and per-chunk / per-batch outcomes
of the embedding and Pinecone calls.  A raising call is a `some err` or
`.error err` outcome carrying `str(e)`. -/

/-- Outcome of `generate_comprehensive_metadata`: a valid dict with its
category and tag counts, an invalid (non-dict) result, or a raised
exception. -/
inductive MetaOutcome where
  | ok (categories tags : Nat)
  | invalid
  | failed (err : String)
deriving Repr, DecidableEq

/-- Environment of one `process_file` run. -/
structure Env where
  openai_available : Bool
  pinecone_available : Bool
  file_exists : Bool
  extract_result : Option String
  metadata : MetaOutcome
  tok : Tokenizer
  embed : Nat → Except String (List Int)
  stats_before : Nat → Option Int
  upsert : Nat → Option String
  stats_after : Nat → Option Int
  verify_stats : Except String Int
  move_result : Option String
  now : String

/-- Result of `process_file`: the returned boolean, the final status
store, and whether `shutil.move` relocated the file out of the intake
folder. -/
structure PFResult where
  success : Bool
  store : Status
  moved : Bool

/-- The inner `for j, chunk in enumerate(batch)` loop (lines 380-430):
per chunk, a progress update, then the embedding call; a truthy
non-empty vector is accumulated, a raised exception logs a warning
with the error, and a falsy/empty vector is skipped silently.
Returns `len(batch_embeddings)` and the updated store. -/
def embedBatch (env : Env) (filename : String) (i j total : Nat) (batch : List String)
    (st : Status) : Nat × Status :=
  match batch with
  | [] => (0, st)
  | _ :: rest =>
      let idx := i + j
      let prog : Int := 40 + (idx * 50) / total
      let num := idx + 1
      let st := update_file_status env.now st filename "processing" prog
        s!"Generating embedding for chunk {num}/{total}"
      match env.embed idx with
      | .ok v =>
          let r := embedBatch env filename i (j + 1) total rest st
          ((if v.length > 0 then 1 else 0) + r.1, r.2)
      | .error e =>
          let st := update_file_status env.now st filename "processing" prog
            s!"Warning: Failed to process chunk {idx}" (some e)
          embedBatch env filename i (j + 1) total rest st

/-- The direct chunk-count write of lines 468-471: re-load the store
and, when the filename's entry is a dict, overwrite its `chunks`
field with the running `processed_chunks`. -/
def setChunksField (st : Status) (filename : String) (n : Nat) : Status :=
  match lookup st filename with
  | some e => setEntry st filename { e with chunks := n }
  | none => st

/-- The guarded re-assertion of lines 530-534: when the entry's
`chunks` key is missing or falsy, set it to `processed_chunks`. -/
def ensureChunksField (st : Status) (filename : String) (n : Nat) : Status :=
  match lookup st filename with
  | some e => if e.chunks = 0 then setEntry st filename { e with chunks := n } else st
  | none => st

/-- The `if batch_embeddings:` upsert block (lines 432-503): announce
the batch, then either a successful upsert (advance `processed_chunks`,
write the `chunks` field directly into the store, log stats) or a
raised exception logged as a batch error.  Returns the new
`processed_chunks` and store. -/
def upsertBatch (env : Env) (filename : String) (i total cnt processed : Nat)
    (batchLen : Nat) (st : Status) : Nat × Status :=
  if cnt = 0 then (processed, st)
  else
    let batchNum := i / 5 + 1
    let prog : Int := 40 + ((i + batchLen) * 50) / total
    let st := update_file_status env.now st filename "processing" prog
      s!"Storing batch {batchNum} ({cnt} vectors) in Pinecone"
    match env.upsert (i / 5) with
    | none =>
        let processed := processed + cnt
        let st := setChunksField st filename processed
        let before := (env.stats_before (i / 5)).getD 0
        let (added, afterCount) := match env.stats_after (i / 5) with
          | some a => (a - before, a)
          | none => ((cnt : Int), (processed : Int))
        let st := update_file_status env.now st filename "processing" prog
          s!"Stored batch {batchNum} in Pinecone (added {added} vectors), total: {afterCount}"
        (processed, st)
    | some err =>
        let st := update_file_status env.now st filename "processing" prog
          s!"Error: Failed to store batch {batchNum} in Pinecone" (some err)
        (processed, st)

/-- Fuel-driven worker for the `for i in range(0, total_chunks, 5)`
loop (lines 366-506); fuel only bounds the recursion depth (keeping
the definition kernel-reducible), and `remaining.length` steps always
suffice since each iteration drops five chunks. -/
def processBatchesAux (env : Env) (filename : String) (total : Nat) :
    Nat → List String → Nat → Nat → Status → Nat × Status
  | _, [], _, processed, st => (processed, st)
  | 0, _ :: _, _, processed, st => (processed, st)
  | fuel + 1, a :: rest, i, processed, st =>
      let batch := (a :: rest).take 5
      let batchNum := i / 5 + 1
      let numBatches := (total + 4) / 5
      let prog : Int := 40 + (i * 50) / total
      let st := update_file_status env.now st filename "processing" prog
        s!"Processing batch {batchNum} of {numBatches}"
      let eb := embedBatch env filename i 0 total batch st
      let ub := upsertBatch env filename i total eb.1 processed batch.length eb.2
      processBatchesAux env filename total fuel ((a :: rest).drop 5) (i + 5) ub.1 ub.2

/-- The `for i in range(0, total_chunks, BATCH_SIZE)` loop (lines
366-506) over the remaining chunks, with `BATCH_SIZE = 5`. -/
def processBatches (env : Env) (filename : String) (remaining : List String)
    (i total processed : Nat) (st : Status) : Nat × Status :=
  processBatchesAux env filename total remaining.length remaining i processed st

/-- The verification block (lines 508-543) for `processed_chunks > 0`:
on a successful stats call, write `verified` and re-assert the `chunks`
field when it is missing or falsy; on a raised exception, write a
`warning` carrying the error. -/
def verifyBlock (env : Env) (filename : String) (processed : Nat) (st : Status) : Status :=
  match env.verify_stats with
  | .ok vc =>
      let st := update_file_status env.now st filename "verified" 98
        s!"Verified storage in Pinecone. Total vectors in index: {vc}"
      ensureChunksField st filename processed
  | .error e =>
      update_file_status env.now st filename "warning" 98
        "Warning: Could not verify Pinecone status, but chunks were processed" (some e)

/-- `process_file(filename)` from `src/folder_processor.py`:
gate on API keys and file existence, extract, annotate (best-effort),
chunk via `chunk_text`, batch-embed-and-upsert, verify, and finally
move the file to the processed folder. -/
def process_file (env : Env) (filename : String) (st0 : Status) : PFResult :=
  if ¬ (env.openai_available && env.pinecone_available) then
    { success := false, moved := false,
      store := update_file_status env.now st0 filename "error" 0
        "API keys missing. Please check OpenAI and Pinecone API keys."
        (some "API keys not configured") }
  else if ¬ env.file_exists then
    { success := false, moved := false,
      store := update_file_status env.now st0 filename "error" 0
        s!"File {filename} not found in upload folder" (some "File not found") }
  else
    let st := update_file_status env.now st0 filename "processing" 0
      s!"Started processing {filename}"
    let st := update_file_status env.now st filename "processing" 5
      s!"Extracting text from {filename}"
    match env.extract_result with
    | none =>
        { success := false, moved := false,
          store := update_file_status env.now st filename "error" 0
            s!"Unable to extract text from {filename}" (some "Text extraction failed") }
    | some text =>
        if text = "" then
          { success := false, moved := false,
            store := update_file_status env.now st filename "error" 0
              s!"Unable to extract text from {filename}" (some "Text extraction failed") }
        else
          let n := text.length
          let st := update_file_status env.now st filename "processing" 15
            s!"Extracted {n} characters from {filename}"
          let st := update_file_status env.now st filename "processing" 20
            s!"Generating comprehensive metadata for {filename}"
          let st := match env.metadata with
            | .ok categories tags =>
                update_file_status env.now st filename "processing" 30
                  s!"Generated metadata with {categories} categories and {tags} tags"
            | .invalid =>
                update_file_status env.now st filename "processing" 30
                  "Warning: Using default metadata, continuing with processing"
            | .failed err =>
                update_file_status env.now st filename "processing" 30
                  "Warning: Metadata generation failed, proceeding with default metadata" (some err)
          let st := update_file_status env.now st filename "processing" 35
            "Chunking text content"
          let chunks := chunk_text env.tok text 500
          let total := chunks.length
          let st := update_file_status env.now st filename "processing" 40
            s!"Chunked text into {total} segments for processing"
          let pb := processBatches env filename chunks 0 total 0 st
          let processed := pb.1
          let st := update_file_status env.now pb.2 filename "verifying" 95
            "Verifying document processing"
          if 0 < processed then
            let st := verifyBlock env filename processed st
            match env.move_result with
            | none =>
                { success := true, moved := true,
                  store := update_file_status env.now st filename "completed" 100
                    s!"Successfully processed {filename} ({processed}/{total} chunks). File moved to processed folder." }
            | some err =>
                { success := true, moved := false,
                  store := update_file_status env.now st filename "warning" 99
                    "Warning: File processed successfully but could not be moved to processed folder" (some err) }
          else
            { success := false, moved := false,
              store := update_file_status env.now st filename "error" 95
                "No chunks were successfully processed" (some "All chunks failed processing") }

/-! ## Observation helpers and concrete test fixtures -/

/-- Status string recorded for `f`, if an entry exists. -/
def statusOf (st : Status) (f : String) : Option String :=
  (lookup st f).map FileTask.status

/-- Progress recorded for `f`, if an entry exists. -/
def progressOf (st : Status) (f : String) : Option Int :=
  (lookup st f).map FileTask.progress

/-- Chunk count recorded for `f` (`0` when absent). -/
def chunksOf (st : Status) (f : String) : Nat :=
  match lookup st f with
  | some e => e.chunks
  | none => 0

/-- Error log recorded for `f` (empty when absent or untyped). -/
def errorsOf (st : Status) (f : String) : List (String × String) :=
  match lookup st f with
  | some e => e.errors.getD []
  | none => []

/-- Message log recorded for `f` (empty when absent or untyped). -/
def messagesOf (st : Status) (f : String) : List (String × String) :=
  match lookup st f with
  | some e => e.messages.getD []
  | none => []

/-- Concrete tokenizer mapping each character to its code point:
a total, round-tripping instance of the tiktoken interface. -/
def tokW : Tokenizer where
  encode s := .ok (s.toList.map Char.toNat)
  decode ts := .ok (String.mk (ts.map Char.ofNat))

/-- Concrete tokenizer whose `encode` always raises. -/
def tokBad : Tokenizer where
  encode _ := .error "tokenizer unavailable"
  decode _ := .error "tokenizer unavailable"

/-- Fixture: a task stuck in `processing` with a parseable timestamp. -/
def stuckTask : FileTask where
  start_time := "t0"
  status := "processing"
  progress := 50
  last_updated := some "2024-01-01T00:00:00"
  messages := some []
  errors := some []
  chunks := 0

/-- Fixture: a `processing` task whose `last_updated` is the empty
string — the key exists but its value is falsy in Python. -/
def emptyLUTask : FileTask where
  start_time := "t0"
  status := "processing"
  progress := 50
  last_updated := some ""
  messages := some []
  errors := some []
  chunks := 0

/-- Fixture: a `processing` task whose `last_updated` is truthy but not
an ISO timestamp. -/
def noParseTask : FileTask where
  start_time := "t0"
  status := "processing"
  progress := 50
  last_updated := some "not-a-date"
  messages := some []
  errors := some []
  chunks := 0

/-- Fixture: an environment in which every collaborator call succeeds. -/
def envOkW : Env where
  openai_available := true
  pinecone_available := true
  file_exists := true
  extract_result := some "hello world"
  metadata := .ok 3 2
  tok := tokW
  embed := fun _ => .ok [1]
  stats_before := fun _ => some 0
  upsert := fun _ => none
  stats_after := fun _ => some 1
  verify_stats := .ok 1
  move_result := none
  now := "T"

/-- Fixture: an environment in which every embedding call raises, so no
chunk is ever stored. -/
def envFailW : Env where
  openai_available := true
  pinecone_available := true
  file_exists := true
  extract_result := some "hello world"
  metadata := .ok 3 2
  tok := tokW
  embed := fun _ => .error "embedding backend down"
  stats_before := fun _ => some 0
  upsert := fun _ => none
  stats_after := fun _ => some 1
  verify_stats := .ok 1
  move_result := none
  now := "T"

/-! ## Store lemmas -/

lemma lookup_setEntry_self (st : Status) (f : String) (e : FileTask) :
    lookup (setEntry st f e) f = some e := by
  induction st with
  | nil => simp [setEntry, lookup]
  | cons kv rest ih =>
      obtain ⟨k, v⟩ := kv
      by_cases h : k = f <;> simp [setEntry, lookup, h, ih]

lemma lookup_setEntry_ne (st : Status) (f g : String) (e : FileTask) (h : g ≠ f) :
    lookup (setEntry st f e) g = lookup st g := by
  induction st with
  | nil => simp [setEntry, lookup, Ne.symm h]
  | cons kv rest ih =>
      obtain ⟨k, v⟩ := kv
      by_cases hk : k = f
      · subst hk
        simp [setEntry, lookup, Ne.symm h]
      · simp [setEntry, lookup, hk, ih]

lemma lookup_update_self (now : String) (st : Status) (f cs : String) (p : Int)
    (m : String) (err : Option String) :
    ∃ e, lookup (update_file_status now st f cs p m err) f = some e ∧
      e.status = cs ∧ e.progress = p ∧
      e.chunks = chunksOf st f ∧
      e.messages.getD [] = (messagesOf st f ++ if m = "" then [] else [(now, m)]) ∧
      e.errors.getD [] = (errorsOf st f ++ match err with
        | none => []
        | some s => if s = "" then [] else [(now, s)]) := by
  refine ⟨_, lookup_setEntry_self .., ?_, ?_, ?_, ?_, ?_⟩ <;>
    · simp only [baseEntry, chunksOf, messagesOf, errorsOf]
      cases hl : lookup st f <;>
        cases err <;>
          simp [hl] <;> split <;> simp

lemma lookup_update_ne (now : String) (st : Status) (f g cs : String) (p : Int)
    (m : String) (err : Option String) (h : g ≠ f) :
    lookup (update_file_status now st f cs p m err) g = lookup st g := by
  simp only [update_file_status]
  exact lookup_setEntry_ne _ _ _ _ h

lemma statusOf_update (now : String) (st : Status) (f cs : String) (p : Int)
    (m : String) (err : Option String) :
    statusOf (update_file_status now st f cs p m err) f = some cs := by
  obtain ⟨e, he, h1, -⟩ := lookup_update_self now st f cs p m err
  simp [statusOf, he, h1]

lemma progressOf_update (now : String) (st : Status) (f cs : String) (p : Int)
    (m : String) (err : Option String) :
    progressOf (update_file_status now st f cs p m err) f = some p := by
  obtain ⟨e, he, -, h2, -⟩ := lookup_update_self now st f cs p m err
  simp [progressOf, he, h2]

lemma chunksOf_update (now : String) (st : Status) (f cs : String) (p : Int)
    (m : String) (err : Option String) :
    chunksOf (update_file_status now st f cs p m err) f = chunksOf st f := by
  obtain ⟨e, he, -, -, h3, -⟩ := lookup_update_self now st f cs p m err
  simp [chunksOf, he, h3]

lemma hasEntry_update (now : String) (st : Status) (f cs : String) (p : Int)
    (m : String) (err : Option String) :
    (lookup (update_file_status now st f cs p m err) f).isSome = true := by
  obtain ⟨e, he, -⟩ := lookup_update_self now st f cs p m err
  simp [he]

/-! ## Claim C2 — progress clamping -/

/-- C2 counterexample: `update_file_status` performs no clamping — a
call with `progress = 150` stores `150`, which is outside `[0, 100]`. -/
theorem c2_counterexample :
    progressOf (update_file_status "t0" [] "doc.txt" "processing" 150 "" none) "doc.txt" = some 150 ∧
    ¬ ((0 : Int) ≤ 150 ∧ (150 : Int) ≤ 100) := by
  decide

/-- C2 (amended): for every call `update_file_status(filename, status,
progress, ...)`, the progress value stored for that filename after the
call is exactly the `progress` argument — the update operation performs
no clamping to `[0, 100]`. -/
theorem c2_progress_stored_verbatim (now : String) (st : Status) (f cs : String) (p : Int)
    (m : String) (err : Option String) :
    progressOf (update_file_status now st f cs p m err) f = some p :=
  progressOf_update now st f cs p m err

/-! ## Claim C8 — update only appends to the logs -/

/-- C8: every call to `update_file_status` preserves all pre-existing
log entries: for every filename `g` in the store (the updated one
included), every message entry and every error entry present before
the call is still present after it. -/
theorem c8_update_preserves_logs (now : String) (st : Status) (f cs : String) (p : Int)
    (m : String) (err : Option String) (g : String) (x : String × String) :
    (x ∈ messagesOf st g → x ∈ messagesOf (update_file_status now st f cs p m err) g) ∧
    (x ∈ errorsOf st g → x ∈ errorsOf (update_file_status now st f cs p m err) g) := by
  by_cases hg : g = f
  · subst hg
    obtain ⟨e, he, -, -, -, hm, herr⟩ := lookup_update_self now st g cs p m err
    constructor <;> intro hx
    · have : messagesOf (update_file_status now st g cs p m err) g = e.messages.getD [] := by
        simp [messagesOf, he]
      rw [this, hm]
      exact List.mem_append_left _ hx
    · have : errorsOf (update_file_status now st g cs p m err) g = e.errors.getD [] := by
        simp [errorsOf, he]
      rw [this, herr]
      exact List.mem_append_left _ hx
  · have := lookup_update_ne now st f g cs p m err hg
    constructor <;> intro hx
    · simpa [messagesOf, this] using hx
    · simpa [errorsOf, this] using hx

/-- C8 witness: a concrete update of `b.txt` keeps the message already
logged for `a.txt`. -/
theorem c8_witness :
    ("t1", "hello") ∈ messagesOf [("a.txt",
      { start_time := "t0", status := "pending", progress := 0, last_updated := none,
        messages := some [("t1", "hello")], errors := some [], chunks := 0 })] "a.txt" ∧
    ("t1", "hello") ∈ messagesOf (update_file_status "t2" [("a.txt",
      { start_time := "t0", status := "pending", progress := 0, last_updated := none,
        messages := some [("t1", "hello")], errors := some [], chunks := 0 })]
      "b.txt" "processing" 5 "starting" none) "a.txt" :=
  ⟨by decide,
   (c8_update_preserves_logs "t2" [("a.txt",
      { start_time := "t0", status := "pending", progress := 0, last_updated := none,
        messages := some [("t1", "hello")], errors := some [], chunks := 0 })]
      "b.txt" "processing" 5 "starting" none "a.txt" ("t1", "hello")).1 (by decide)⟩

/-! ## Claim C9 — corrupt status file recovery -/

/-- C9: for every status-file content the JSON parser rejects,
`load_status` returns the empty mapping, after backing the non-empty
corrupt file up under a timestamped name and rewriting the status file
as the empty JSON object. -/
theorem c9_load_corrupt (parseJson : String → Option Status) (epoch : Nat) (fs : StatusFS)
    (content : String) (hc : fs.statusFile = some content) (hp : parseJson content = none) :
    (load_status parseJson epoch fs).1 = [] ∧
    (load_status parseJson epoch fs).2.statusFile = some "\x7b\x7d" ∧
    (load_status parseJson epoch fs).2.backups =
      (if content.length > 0 then
        ("processing_status.json.bak." ++ toString epoch, content) :: fs.backups
      else fs.backups) := by
  refine ⟨?_, ?_, ?_⟩ <;> simp only [load_status, hc, hp]
  split <;> rfl

/-- C9 witness: loading a malformed document returns the empty mapping,
backs the corrupt content up, and rewrites the file. -/
theorem c9_witness :
    (load_status (fun _ => none) 7 ⟨some "garbage", []⟩).1 = [] ∧
    (load_status (fun _ => none) 7 ⟨some "garbage", []⟩).2.statusFile = some "\x7b\x7d" ∧
    (load_status (fun _ => none) 7 ⟨some "garbage", []⟩).2.backups =
      (if "garbage".length > 0 then
        [("processing_status.json.bak." ++ toString 7, "garbage")]
      else []) :=
  c9_load_corrupt (fun _ => none) 7 ⟨some "garbage", []⟩ "garbage" rfl rfl

/-! ## Claim C6 — stuck-task reclamation -/

/-- C6: a file present in the intake folder with an allowed extension
whose status entry is `processing` with a `last_updated` timestamp more
than 1800 seconds older than the current time is included in
`get_pending_files()`. -/
theorem c6_stuck_reclaimed (isfile : String → Bool) (listing : List String) (st : Status)
    (parse : String → Option Int) (now : Int) (f : String) (e : FileTask) (s : String) (t : Int)
    (hf : f ∈ listing) (hisf : isfile f = true) (hall : allowed_file f = true)
    (he : lookup st f = some e) (hst : e.status = "processing")
    (hlu : e.last_updated = some s) (hne : s ≠ "")
    (hp : parse s = some t) (hstuck : now - t > 1800) :
    f ∈ get_pending_files isfile listing st parse now := by
  have helig : eligible st parse now f = true := by
    simp [eligible, he, hst, hlu, hne, hp, hstuck]
  unfold get_pending_files
  rw [List.mem_filter]
  exact ⟨List.mem_filter.mpr ⟨hf, by simp [hisf, hall]⟩, helig⟩

/-- C6 witness: a stuck `processing` file from 2000 epoch-seconds after
a timestamp parsed as 0 is reclaimed. -/
theorem c6_witness :
    "doc.pdf" ∈ get_pending_files (fun _ => true) ["doc.pdf"] [("doc.pdf", stuckTask)]
      (fun _ => some 0) 2000 :=
  c6_stuck_reclaimed (fun _ => true) ["doc.pdf"] [("doc.pdf", stuckTask)] (fun _ => some 0)
    2000 "doc.pdf" stuckTask "2024-01-01T00:00:00" 0
    (by decide) rfl (by decide) (by decide) rfl rfl (by decide) rfl (by decide)

/-! ## Claim C10 — unparseable and absent `last_updated` -/

/-- C10 counterexample: a `processing` entry whose `last_updated` value
exists — the key holds the empty string — and cannot be parsed as an
ISO timestamp, yet `get_pending_files()` does not include the file:
Python's `if last_updated:` truth test skips falsy values before the
parse is ever attempted. -/
theorem c10_counterexample :
    lookup [("doc.pdf", emptyLUTask)] "doc.pdf" = some emptyLUTask ∧
    emptyLUTask.status = "processing" ∧
    emptyLUTask.last_updated = some "" ∧
    (fun _ : String => (none : Option Int)) "" = none ∧
    "doc.pdf" ∉ get_pending_files (fun _ => true) ["doc.pdf"] [("doc.pdf", emptyLUTask)]
      (fun _ => none) 10000 := by
  decide

/-- C10 (amended): for a file in the intake folder whose entry has
status `processing`: if its `last_updated` value exists, is non-empty,
and cannot be parsed as an ISO timestamp, `get_pending_files()`
includes the file; if the entry has no `last_updated` key at all, the
file is not included. -/
theorem c10_last_updated_edge_cases (isfile : String → Bool) (listing : List String)
    (st : Status) (parse : String → Option Int) (now : Int) (f : String) (e : FileTask)
    (hf : f ∈ listing) (hisf : isfile f = true) (hall : allowed_file f = true)
    (he : lookup st f = some e) (hst : e.status = "processing") :
    (∀ s, e.last_updated = some s → s ≠ "" → parse s = none →
      f ∈ get_pending_files isfile listing st parse now) ∧
    (e.last_updated = none → f ∉ get_pending_files isfile listing st parse now) := by
  constructor
  · intro s hlu hne hp
    have helig : eligible st parse now f = true := by
      simp [eligible, he, hst, hlu, hne, hp]
    unfold get_pending_files
    rw [List.mem_filter]
    exact ⟨List.mem_filter.mpr ⟨hf, by simp [hisf, hall]⟩, helig⟩
  · intro hlu hmem
    have helig : eligible st parse now f = false := by
      simp [eligible, he, hst, hlu]
    have := (List.mem_filter.mp hmem).2
    rw [helig] at this
    exact Bool.false_ne_true this

/-- C10 witness: a truthy but unparseable `last_updated` reclaims the
file. -/
theorem c10_witness :
    "doc.pdf" ∈ get_pending_files (fun _ => true) ["doc.pdf"] [("doc.pdf", noParseTask)]
      (fun _ => none) 0 :=
  (c10_last_updated_edge_cases (fun _ => true) ["doc.pdf"] [("doc.pdf", noParseTask)]
    (fun _ => none) 0 "doc.pdf" noParseTask
    (by decide) rfl (by decide) (by decide) rfl).1 "not-a-date" rfl (by decide) rfl

/-! ## Window lemmas for the chunker -/

lemma windowsAux_fuel_irrel {k : Nat} (hk : 0 < k) :
    ∀ (fuel fuel' : Nat) (l : List α), l.length ≤ fuel → l.length ≤ fuel' →
      windowsAux k fuel l = windowsAux k fuel' l := by
  intro fuel
  induction fuel with
  | zero =>
      intro fuel' l hl _
      have : l = [] := List.length_eq_zero.mp (Nat.le_zero.mp hl)
      subst this
      cases fuel' <;> simp [windowsAux]
  | succ n ih =>
      intro fuel' l hl hl'
      cases l with
      | nil => cases fuel' <;> simp [windowsAux]
      | cons a rest =>
          cases fuel' with
          | zero => simp at hl'
          | succ m =>
              simp only [windowsAux]
              congr 1
              apply ih <;>
                simp only [List.length_drop, List.length_cons] at hl hl' ⊢ <;>
                omega

lemma windows_nil {k : Nat} : windows ([] : List α) k = [] := rfl

lemma windows_cons {k : Nat} (hk : 0 < k) (a : α) (rest : List α) :
    windows (a :: rest) k = (a :: rest).take k :: windows ((a :: rest).drop k) k := by
  simp only [windows, List.length_cons, windowsAux]
  congr 1
  apply windowsAux_fuel_irrel hk
  · simp only [List.length_drop, List.length_cons]
    omega
  · exact Nat.le_refl _

lemma windows_ne_nil {k : Nat} (hk : 0 < k) (a : α) (rest : List α) :
    windows (a :: rest) k ≠ [] := by
  rw [windows_cons hk]
  exact List.cons_ne_nil _ _

lemma windows_flatten {k : Nat} (hk : 0 < k) (l : List α) : (windows l k).flatten = l := by
  cases l with
  | nil => simp [windows_nil]
  | cons a rest =>
      rw [windows_cons hk]
      have ih := windows_flatten hk ((a :: rest).drop k)
      simp only [List.flatten_cons, ih]
      exact List.take_append_drop k (a :: rest)
termination_by l.length
decreasing_by
  simp [List.length_drop, List.length_cons]
  omega

lemma windows_length {k : Nat} (hk : 0 < k) (l : List α) :
    (windows l k).length = (l.length + k - 1) / k := by
  cases l with
  | nil =>
      simp only [windows_nil, List.length_nil]
      exact (Nat.div_eq_of_lt (by omega)).symm
  | cons a rest =>
      rw [windows_cons hk]
      have ih := windows_length hk ((a :: rest).drop k)
      simp only [List.length_cons, ih, List.length_drop]
      rcases Nat.lt_or_ge (rest.length + 1) k with hlt | hge
      · have h1 : rest.length + 1 - k = 0 := by omega
        rw [h1]
        have h2 : (0 + k - 1) / k = 0 := Nat.div_eq_of_lt (by omega)
        rw [h2]
        have h3 : (rest.length + 1 + k - 1) / k = 1 :=
          Nat.div_eq_of_lt_le (by omega) (by omega)
        omega
      · have h1 : rest.length + 1 - k + k - 1 + k = rest.length + 1 + k - 1 := by omega
        have h2 : (rest.length + 1 - k + k - 1 + k) / k = (rest.length + 1 - k + k - 1) / k + 1 :=
          Nat.add_div_right _ hk
        rw [h1] at h2
        exact h2.symm
termination_by l.length
decreasing_by
  simp [List.length_drop, List.length_cons]
  omega

lemma windows_mem_length {k : Nat} (hk : 0 < k) (l : List α) :
    ∀ w ∈ windows l k, w.length ≤ k := by
  cases l with
  | nil => simp [windows_nil]
  | cons a rest =>
      rw [windows_cons hk]
      intro w hw
      rcases List.mem_cons.mp hw with h | h
      · subst h
        exact List.length_take_le _ _
      · exact windows_mem_length hk _ w h
termination_by l.length
decreasing_by
  simp [List.length_drop, List.length_cons]
  omega

lemma windows_dropLast_length {k : Nat} (hk : 0 < k) (l : List α) :
    ∀ w ∈ (windows l k).dropLast, w.length = k := by
  cases l with
  | nil => simp [windows_nil]
  | cons a rest =>
      rw [windows_cons hk]
      cases hdrop : (a :: rest).drop k with
      | nil =>
          rw [windows_nil]
          simp
      | cons b rest2 =>
          intro w hw
          rw [List.dropLast_cons_of_ne_nil (windows_ne_nil hk b rest2)] at hw
          rcases List.mem_cons.mp hw with h | h
          · subst h
            have hlen : k < (a :: rest).length := by
              by_contra hc
              push_neg at hc
              have h0 : (a :: rest).drop k = [] := List.drop_eq_nil_of_le hc
              rw [h0] at hdrop
              exact List.cons_ne_nil b rest2 hdrop.symm
            simp only [List.length_take, List.length_cons] at hlen ⊢
            omega
          · have hrec := windows_dropLast_length hk ((a :: rest).drop k)
            rw [hdrop] at hrec
            exact hrec w h
termination_by l.length
decreasing_by
  simp [List.length_drop, List.length_cons]
  omega

lemma decodeAll_ok (dec : List Nat → Except String String) :
    ∀ ws : List (List Nat), (∀ w ∈ ws, ∃ s, dec w = .ok s) →
      ∃ cs, decodeAll dec ws = .ok cs ∧ List.Forall₂ (fun w s => dec w = .ok s) ws cs := by
  intro ws
  induction ws with
  | nil => exact fun _ => ⟨[], rfl, List.Forall₂.nil⟩
  | cons w ws ih =>
      intro h
      obtain ⟨s, hs⟩ := h w (List.mem_cons_self w ws)
      obtain ⟨cs, hcs, hf⟩ := ih fun w' hw' => h w' (List.mem_cons_of_mem w hw')
      refine ⟨s :: cs, ?_, List.Forall₂.cons hs hf⟩
      simp only [decodeAll, hs, hcs]
      rfl

lemma forall₂_encode_back (enc : Tokenizer) :
    ∀ (ws : List (List Nat)) (cs : List String),
      List.Forall₂ (fun w s => enc.decode w = .ok s) ws cs →
      (∀ w ∈ ws, ∃ s, enc.decode w = .ok s ∧ enc.encode s = .ok w) →
      List.Forall₂ (fun s w => enc.encode s = .ok w) cs ws := by
  intro ws cs hf
  induction hf with
  | nil => exact fun _ => List.Forall₂.nil
  | cons hws hrest ih =>
      intro h
      obtain ⟨s', hdec', henc'⟩ := h _ (List.mem_cons_self _ _)
      rw [hws] at hdec'
      have hss := Except.ok.inj hdec'
      refine List.Forall₂.cons ?_ (ih fun w hw => h w (List.mem_cons_of_mem _ hw))
      rw [hss]
      exact henc'

lemma exceptBindOk {ε α β : Type} (a : α) (f : α → Except ε β) :
    (Except.ok a >>= f : Except ε β) = f a := rfl

lemma exceptPureOk {ε α : Type} (a : α) : (pure a : Except ε α) = Except.ok a := rfl

/-! ## Claim C4 — short text is returned whole -/

/-- C4: when the token count of `text` is at most `max_tokens`,
`chunk_text` returns exactly one chunk, the original text itself. -/
theorem c4_short_text_single_chunk (enc : Tokenizer) (text : String) (mt : Nat)
    (tokens : List Nat) (henc : enc.encode text = .ok tokens)
    (hle : tokens.length ≤ mt) :
    chunk_text enc text mt = [text] := by
  have h1 : tokenizeChunks enc text mt = .ok [text] := by
    unfold tokenizeChunks
    rw [henc, exceptBindOk, if_pos hle, exceptPureOk]
  simp [chunk_text, h1]

/-- C4 witness: a two-token text with the default budget 500. -/
theorem c4_witness : chunk_text tokW "hi" 500 = ["hi"] :=
  c4_short_text_single_chunk tokW "hi" 500 [104, 105] rfl (by decide)

/-! ## Claim C5 — fallback on tokenizer failure -/

/-- C5: whenever tokenization raises anywhere (in `encode`, in a
window's `decode`, or through the `range` step-zero error),
`chunk_text` returns the fixed 2000-character fallback slicing of the
raw text.  `chunk_text` and `charFallback` are total Lean functions,
so neither can raise. -/
theorem c5_fallback_on_tokenizer_failure (enc : Tokenizer) (text : String) (mt : Nat)
    (e : String) (h : tokenizeChunks enc text mt = .error e) :
    chunk_text enc text mt = charFallback text := by
  simp [chunk_text, h]

/-- C5 witness: a raising tokenizer yields the character fallback. -/
theorem c5_witness : chunk_text tokBad "abcdef" 500 = charFallback "abcdef" :=
  c5_fallback_on_tokenizer_failure tokBad "abcdef" 500 "tokenizer unavailable" rfl

/-! ## Claim C3 — long-text windowing and the round-trip law -/

/-- C3: for a text whose token count `N` exceeds `max_tokens` (with a
positive budget, as required for `ceil(N/max_tokens)` to be defined),
when every window decodes and re-encodes back to itself (the
round-trip law of the external tokenizer on these windows),
`chunk_text` returns exactly `ceil(N/max_tokens)` chunks, re-encoding
the chunks in order yields exactly the token windows, whose
concatenation is the original token sequence, and every window except
possibly the final one has length exactly `max_tokens` (none longer). -/
theorem c3_long_text_chunk_roundtrip (enc : Tokenizer) (text : String) (mt : Nat)
    (tokens : List Nat) (henc : enc.encode text = .ok tokens)
    (hmt : 0 < mt) (hlong : mt < tokens.length)
    (hround : ∀ w ∈ windows tokens mt, ∃ s, enc.decode w = .ok s ∧ enc.encode s = .ok w) :
    (chunk_text enc text mt).length = (tokens.length + mt - 1) / mt ∧
    List.Forall₂ (fun s w => enc.encode s = .ok w) (chunk_text enc text mt) (windows tokens mt) ∧
    (windows tokens mt).flatten = tokens ∧
    (∀ w ∈ (windows tokens mt).dropLast, w.length = mt) ∧
    (∀ w ∈ windows tokens mt, w.length ≤ mt) := by
  obtain ⟨cs, hcs, hf⟩ := decodeAll_ok enc.decode (windows tokens mt)
    (fun w hw => (hround w hw).imp fun s hs => hs.1)
  have hct : chunk_text enc text mt = cs := by
    have h1 : tokenizeChunks enc text mt = .ok cs := by
      unfold tokenizeChunks
      rw [henc, exceptBindOk, if_neg (Nat.not_le.mpr hlong),
        if_neg (Nat.pos_iff_ne_zero.mp hmt), hcs]
    simp [chunk_text, h1]
  refine ⟨?_, ?_, windows_flatten hmt tokens, windows_dropLast_length hmt tokens,
    windows_mem_length hmt tokens⟩
  · rw [hct, ← List.Forall₂.length_eq hf, windows_length hmt]
  · rw [hct]
    exact forall₂_encode_back enc _ _ hf hround

/-- C3 witness: four tokens with budget 3 give two chunks, windows
`[97,98,99]` and `[100]`, which decode to `"abc"` and `"d"` and
re-encode to themselves. -/
theorem c3_witness :
    (chunk_text tokW "abcd" 3).length = (([97, 98, 99, 100] : List Nat).length + 3 - 1) / 3 ∧
    List.Forall₂ (fun s w => tokW.encode s = .ok w) (chunk_text tokW "abcd" 3)
      (windows ([97, 98, 99, 100] : List Nat) 3) ∧
    (windows ([97, 98, 99, 100] : List Nat) 3).flatten = [97, 98, 99, 100] ∧
    (∀ w ∈ (windows ([97, 98, 99, 100] : List Nat) 3).dropLast, w.length = 3) ∧
    (∀ w ∈ windows ([97, 98, 99, 100] : List Nat) 3, w.length ≤ 3) :=
  c3_long_text_chunk_roundtrip tokW "abcd" 3 [97, 98, 99, 100] rfl (by decide) (by decide)
    (by
      intro w hw
      rw [show windows ([97, 98, 99, 100] : List Nat) 3 = [[97, 98, 99], [100]] from by decide] at hw
      rcases List.mem_cons.mp hw with h | h
      · subst h
        exact ⟨"abc", rfl, rfl⟩
      · rcases List.mem_cons.mp h with h2 | h2
        · subst h2
          exact ⟨"d", rfl, rfl⟩
        · exact absurd h2 (List.not_mem_nil w))

/-! ## File-processor lemmas -/

lemma errorsOf_update_append (now : String) (st : Status) (f cs : String) (p : Int)
    (m s : String) (hs : s ≠ "") :
    errorsOf (update_file_status now st f cs p m (some s)) f = errorsOf st f ++ [(now, s)] := by
  obtain ⟨e, he, -, -, -, -, herr⟩ := lookup_update_self now st f cs p m (some s)
  simp [errorsOf, he, herr, hs]

lemma chunksOf_setChunksField_update (now : String) (st : Status) (f cs : String) (p : Int)
    (m : String) (err : Option String) (n : Nat) :
    chunksOf (setChunksField (update_file_status now st f cs p m err) f n) f = n := by
  obtain ⟨e, he, -⟩ := lookup_update_self now st f cs p m err
  simp [setChunksField, he, chunksOf, lookup_setEntry_self]

lemma hasEntry_setChunksField_update (now : String) (st : Status) (f cs : String) (p : Int)
    (m : String) (err : Option String) (n : Nat) :
    (lookup (setChunksField (update_file_status now st f cs p m err) f n) f).isSome = true := by
  obtain ⟨e, he, -⟩ := lookup_update_self now st f cs p m err
  simp [setChunksField, he, lookup_setEntry_self]

lemma chunksOf_ensureChunksField_update (now : String) (st : Status) (f cs : String) (p : Int)
    (m : String) (err : Option String) (n : Nat) :
    chunksOf (ensureChunksField (update_file_status now st f cs p m err) f n) f =
      (if chunksOf st f = 0 then n else chunksOf st f) := by
  obtain ⟨e, he, -, -, hch, -⟩ := lookup_update_self now st f cs p m err
  simp only [ensureChunksField, he]
  by_cases h0 : e.chunks = 0
  · rw [if_pos h0, if_pos (by rw [← hch]; exact h0)]
    simp [chunksOf, lookup_setEntry_self]
  · rw [if_neg h0, if_neg (by rw [← hch]; exact h0), chunksOf_update]

lemma embedBatch_chunksOf (env : Env) (f : String) :
    ∀ (batch : List String) (i j total : Nat) (st : Status),
      chunksOf (embedBatch env f i j total batch st).2 f = chunksOf st f ∧
      ((lookup st f).isSome = true →
        (lookup (embedBatch env f i j total batch st).2 f).isSome = true) := by
  intro batch
  induction batch with
  | nil => intro i j total st; exact ⟨rfl, fun h => h⟩
  | cons c rest ih =>
      intro i j total st
      simp only [embedBatch]
      cases env.embed (i + j) with
      | ok v =>
          dsimp only
          constructor
          · rw [(ih i (j + 1) total _).1, chunksOf_update]
          · intro _
            exact (ih i (j + 1) total _).2 (hasEntry_update ..)
      | error e =>
          dsimp only
          constructor
          · rw [(ih i (j + 1) total _).1, chunksOf_update, chunksOf_update]
          · intro _
            exact (ih i (j + 1) total _).2 (hasEntry_update ..)

lemma embedBatch_fst (env : Env) (f : String) :
    ∀ (batch : List String) (i j total : Nat) (st st' : Status),
      (embedBatch env f i j total batch st).1 = (embedBatch env f i j total batch st').1 := by
  intro batch
  induction batch with
  | nil => intro i j total st st'; rfl
  | cons c rest ih =>
      intro i j total st st'
      simp only [embedBatch]
      cases env.embed (i + j) with
      | ok v =>
          dsimp only
          rw [ih i (j + 1) total _ _]
      | error e =>
          dsimp only
          rw [ih i (j + 1) total _ _]

lemma upsertBatch_fst (env : Env) (f : String) (i total cnt processed batchLen : Nat)
    (st st' : Status) :
    (upsertBatch env f i total cnt processed batchLen st).1 =
      (upsertBatch env f i total cnt processed batchLen st').1 := by
  simp only [upsertBatch]
  by_cases h : cnt = 0
  · simp [h]
  · simp only [h, if_false]
    cases env.upsert (i / 5) <;> dsimp only

lemma upsertBatch_spec (env : Env) (f : String) (i total cnt processed batchLen : Nat)
    (st : Status) (h : (lookup st f).isSome = true) :
    (lookup (upsertBatch env f i total cnt processed batchLen st).2 f).isSome = true ∧
    processed ≤ (upsertBatch env f i total cnt processed batchLen st).1 ∧
    chunksOf (upsertBatch env f i total cnt processed batchLen st).2 f =
      (if (upsertBatch env f i total cnt processed batchLen st).1 = processed then
        chunksOf st f
      else (upsertBatch env f i total cnt processed batchLen st).1) := by
  simp only [upsertBatch]
  by_cases hc : cnt = 0
  · simp [hc, h]
  · simp only [hc, if_false]
    cases hup : env.upsert (i / 5) with
    | none =>
        dsimp only
        refine ⟨hasEntry_update .., Nat.le_add_right processed cnt, ?_⟩
        rw [chunksOf_update, chunksOf_setChunksField_update, if_neg (by omega)]
    | some err =>
        dsimp only
        refine ⟨hasEntry_update .., Nat.le_refl processed, ?_⟩
        rw [if_pos rfl, chunksOf_update, chunksOf_update]

lemma stepStore_spec (env : Env) (f : String) (i total processed : Nat)
    (batch : List String) (st : Status) (prog : Int) (msg : String)
    (_hsome : (lookup st f).isSome = true)
    (hinv : 0 < processed → chunksOf st f = processed) :
    (lookup (upsertBatch env f i total
      (embedBatch env f i 0 total batch (update_file_status env.now st f "processing" prog msg)).1
      processed batch.length
      (embedBatch env f i 0 total batch (update_file_status env.now st f "processing" prog msg)).2).2
        f).isSome = true ∧
    processed ≤ (upsertBatch env f i total
      (embedBatch env f i 0 total batch (update_file_status env.now st f "processing" prog msg)).1
      processed batch.length
      (embedBatch env f i 0 total batch (update_file_status env.now st f "processing" prog msg)).2).1 ∧
    (0 < (upsertBatch env f i total
      (embedBatch env f i 0 total batch (update_file_status env.now st f "processing" prog msg)).1
      processed batch.length
      (embedBatch env f i 0 total batch (update_file_status env.now st f "processing" prog msg)).2).1 →
      chunksOf (upsertBatch env f i total
        (embedBatch env f i 0 total batch (update_file_status env.now st f "processing" prog msg)).1
        processed batch.length
        (embedBatch env f i 0 total batch (update_file_status env.now st f "processing" prog msg)).2).2
          f =
      (upsertBatch env f i total
        (embedBatch env f i 0 total batch (update_file_status env.now st f "processing" prog msg)).1
        processed batch.length
        (embedBatch env f i 0 total batch (update_file_status env.now st f "processing" prog msg)).2).1) := by
  obtain ⟨hEB1, hEB2⟩ := embedBatch_chunksOf env f batch i 0 total
    (update_file_status env.now st f "processing" prog msg)
  obtain ⟨hUB1, hUB2, hUB3⟩ := upsertBatch_spec env f i total
    (embedBatch env f i 0 total batch (update_file_status env.now st f "processing" prog msg)).1
    processed batch.length
    (embedBatch env f i 0 total batch (update_file_status env.now st f "processing" prog msg)).2
    (hEB2 (hasEntry_update ..))
  refine ⟨hUB1, hUB2, ?_⟩
  intro hp
  rcases Nat.eq_or_lt_of_le hUB2 with heq | hlt
  · rw [hUB3, if_pos heq.symm, hEB1, chunksOf_update]
    exact heq ▸ hinv (heq ▸ hp)
  · rw [hUB3, if_neg (by omega)]

lemma stepStore_fst (env : Env) (f : String) (i total processed : Nat)
    (batch : List String) (st st' : Status) (prog : Int) (msg : String) :
    (upsertBatch env f i total
      (embedBatch env f i 0 total batch (update_file_status env.now st f "processing" prog msg)).1
      processed batch.length
      (embedBatch env f i 0 total batch (update_file_status env.now st f "processing" prog msg)).2).1 =
    (upsertBatch env f i total
      (embedBatch env f i 0 total batch (update_file_status env.now st' f "processing" prog msg)).1
      processed batch.length
      (embedBatch env f i 0 total batch (update_file_status env.now st' f "processing" prog msg)).2).1 := by
  rw [embedBatch_fst env f batch i 0 total
    (update_file_status env.now st f "processing" prog msg)
    (update_file_status env.now st' f "processing" prog msg)]
  exact upsertBatch_fst env f i total _ processed batch.length _ _

lemma processBatchesAux_spec (env : Env) (f : String) (total : Nat) :
    ∀ (fuel : Nat) (rem : List String) (i processed : Nat) (st : Status),
      (lookup st f).isSome = true →
      (0 < processed → chunksOf st f = processed) →
      (lookup (processBatchesAux env f total fuel rem i processed st).2 f).isSome = true ∧
      processed ≤ (processBatchesAux env f total fuel rem i processed st).1 ∧
      (0 < (processBatchesAux env f total fuel rem i processed st).1 →
        chunksOf (processBatchesAux env f total fuel rem i processed st).2 f =
          (processBatchesAux env f total fuel rem i processed st).1) := by
  intro fuel
  induction fuel with
  | zero =>
      intro rem i processed st hsome hinv
      cases rem <;> exact ⟨hsome, Nat.le_refl _, hinv⟩
  | succ n ih =>
      intro rem i processed st hsome hinv
      cases rem with
      | nil => exact ⟨hsome, Nat.le_refl _, hinv⟩
      | cons a rest =>
          simp only [processBatchesAux]
          obtain ⟨h1, h2, h3⟩ := stepStore_spec env f i total processed
            ((a :: rest).take 5) st _ _ hsome hinv
          obtain ⟨r1, r2, r3⟩ := ih ((a :: rest).drop 5) (i + 5) _ _ h1 h3
          exact ⟨r1, Nat.le_trans h2 r2, r3⟩

lemma processBatchesAux_fst_indep (env : Env) (f : String) (total : Nat) :
    ∀ (fuel : Nat) (rem : List String) (i processed : Nat) (st st' : Status),
      (processBatchesAux env f total fuel rem i processed st).1 =
        (processBatchesAux env f total fuel rem i processed st').1 := by
  intro fuel
  induction fuel with
  | zero => intro rem i processed st st'; cases rem <;> rfl
  | succ n ih =>
      intro rem i processed st st'
      cases rem with
      | nil => rfl
      | cons a rest =>
          simp only [processBatchesAux]
          rw [stepStore_fst env f i total processed ((a :: rest).take 5) st st' _ _]
          exact ih _ _ _ _ _

lemma verifyBlock_chunksOf (env : Env) (f : String) (processed : Nat) (st : Status)
    (h : chunksOf st f ≠ 0) :
    chunksOf (verifyBlock env f processed st) f = chunksOf st f := by
  unfold verifyBlock
  cases env.verify_stats with
  | ok vc =>
      rw [chunksOf_ensureChunksField_update, if_neg h]
  | error e =>
      exact chunksOf_update ..

lemma processBatches_spec (env : Env) (f : String) (rem : List String)
    (i total processed : Nat) (st : Status)
    (hsome : (lookup st f).isSome = true)
    (hinv : 0 < processed → chunksOf st f = processed) :
    (lookup (processBatches env f rem i total processed st).2 f).isSome = true ∧
    processed ≤ (processBatches env f rem i total processed st).1 ∧
    (0 < (processBatches env f rem i total processed st).1 →
      chunksOf (processBatches env f rem i total processed st).2 f =
        (processBatches env f rem i total processed st).1) :=
  processBatchesAux_spec env f total rem.length rem i processed st hsome hinv

lemma processBatches_fst_indep (env : Env) (f : String) (rem : List String)
    (i total processed : Nat) (st st' : Status) :
    (processBatches env f rem i total processed st).1 =
      (processBatches env f rem i total processed st').1 :=
  processBatchesAux_fst_indep env f total rem.length rem i processed st st'

lemma process_file_cases (env : Env) (f : String) (st0 : Status) :
    (statusOf (process_file env f st0).store f = some "completed" ∧
      (process_file env f st0).moved = true ∧
      0 < chunksOf (process_file env f st0).store f) ∨
    statusOf (process_file env f st0).store f ≠ some "completed" := by
  unfold process_file
  split
  · right
    simp [statusOf_update]
  · split
    · right
      simp [statusOf_update]
    · split
      · right
        simp [statusOf_update]
      · split
        · right
          simp [statusOf_update]
        · dsimp only
          split
          · -- at least one chunk stored: verification then relocation
            split
            · -- move succeeded: the completed path
              left
              dsimp only
              refine ⟨statusOf_update .., rfl, ?_⟩
              have hch := (processBatches_spec env f _ _ _ _ _ (hasEntry_update ..)
                (fun hcon => absurd hcon (Nat.lt_irrefl 0))).2.2 (by assumption)
              rw [chunksOf_update]
              rw [verifyBlock_chunksOf]
              · rw [chunksOf_update, hch]
                assumption
              · rw [chunksOf_update, hch]
                omega
            · -- move failed: warning, not completed
              right
              simp [statusOf_update]
          · -- zero chunks stored: error, not completed
            right
            simp [statusOf_update]

/-! ## Claim C1 — completed implies stored chunks and relocation -/

/-- C1: after a `process_file` run, if the processed file's final
status is `completed`, then its recorded chunk count is positive and
the source file was moved out of the intake folder: `process_file`
only writes `completed` after the zero-chunks error branch was not
taken and the move succeeded. -/
theorem c1_completed_implies_chunks_and_moved (env : Env) (f : String) (st0 : Status)
    (h : statusOf (process_file env f st0).store f = some "completed") :
    0 < chunksOf (process_file env f st0).store f ∧
      (process_file env f st0).moved = true := by
  rcases process_file_cases env f st0 with ⟨-, hm, hc⟩ | hne
  · exact ⟨hc, hm⟩
  · exact absurd h hne

/-- C1 witness: a fully successful run ends `completed` with one
stored chunk and the file moved. -/
theorem c1_witness :
    statusOf (process_file envOkW "doc.pdf" []).store "doc.pdf" = some "completed" ∧
    (0 < chunksOf (process_file envOkW "doc.pdf" []).store "doc.pdf" ∧
      (process_file envOkW "doc.pdf" []).moved = true) :=
  ⟨by decide, c1_completed_implies_chunks_and_moved envOkW "doc.pdf" [] (by decide)⟩

/-! ## Claim C7 — zero stored chunks is a terminal error -/

/-- C7: when the gates pass (API keys, file present, non-empty
extraction) but the batch loop stores zero chunks, `process_file`
returns `False`, does not move the file, and leaves a terminal
`error` status at progress 95 whose last error entry is
`"All chunks failed processing"`. -/
theorem c7_zero_chunks_error (env : Env) (f : String) (st0 : Status) (text : String)
    (h1 : env.openai_available = true) (h2 : env.pinecone_available = true)
    (h3 : env.file_exists = true) (htext : env.extract_result = some text) (hne : text ≠ "")
    (hzero : (processBatches env f (chunk_text env.tok text 500) 0
      (chunk_text env.tok text 500).length 0 []).1 = 0) :
    (process_file env f st0).success = false ∧
    (process_file env f st0).moved = false ∧
    statusOf (process_file env f st0).store f = some "error" ∧
    progressOf (process_file env f st0).store f = some 95 ∧
    (errorsOf (process_file env f st0).store f).getLast? =
      some (env.now, "All chunks failed processing") := by
  have h0 : ∀ stX : Status, (processBatches env f (chunk_text env.tok text 500) 0
      (chunk_text env.tok text 500).length 0 stX).1 = 0 :=
    fun stX => (processBatches_fst_indep env f _ _ _ _ stX []).trans hzero
  unfold process_file
  simp only [h1, h2, h3, htext, hne, Bool.and_self, Bool.not_true, Bool.false_eq_true,
    not_true, not_false_iff, ite_false, ite_true, if_false, if_true, Bool.not_false,
    Bool.true_eq_false, reduceCtorEq]
  rw [h0]
  rw [if_neg (Nat.lt_irrefl 0)]
  dsimp only
  refine ⟨rfl, rfl, statusOf_update .., progressOf_update .., ?_⟩
  rw [errorsOf_update_append _ _ _ _ _ _ _ (by decide)]
  exact List.getLast?_concat _

/-- C7 witness: every embedding call raising leaves the file in
`error` at progress 95 with the terminal error entry, unmoved. -/
theorem c7_witness :
    (process_file envFailW "doc.pdf" []).success = false ∧
    (process_file envFailW "doc.pdf" []).moved = false ∧
    statusOf (process_file envFailW "doc.pdf" []).store "doc.pdf" = some "error" ∧
    progressOf (process_file envFailW "doc.pdf" []).store "doc.pdf" = some 95 ∧
    (errorsOf (process_file envFailW "doc.pdf" []).store "doc.pdf").getLast? =
      some (envFailW.now, "All chunks failed processing") :=
  c7_zero_chunks_error envFailW "doc.pdf" [] "hello world" rfl rfl rfl rfl
    (by decide) (by decide)

end ChatAgent
